import Mathlib

/-!
Verification of the rational-function generation and analysis engine
(`RationalFunctionGenerator` in `function_generator.py`).

The Python code draws randomness from the process-wide `random` module; we
model that source as an explicit tape of integers.  Every random primitive
consumes tape entries, and unbounded retry loops (`while ...: resample`) are
modelled with explicit fuel, so a computation either succeeds with a value and
the remaining tape, or fails (`none`) on tape exhaustion / fuel exhaustion.
Claims about "every value the generator can produce" quantify over all tapes
on which the computation succeeds.

Polynomials are kept in the structural form in which the generator builds
them: a list of integer roots of monic linear factors `(x - a)`, times one
monomial `c·x^k`.  This is exactly the shape of every sympy expression the
generator ever constructs, and sympy's exact root solving / limit computation
on such expressions is embedded as exact computation on this structure.
-/

namespace RFG

/-- The randomness source: Python's `random` module, modelled as a tape of
integers.  A computation returns `none` when the tape (or retry fuel) runs
out, `some (a, t)` on success with remaining tape `t`. -/
def RandM (α : Type) : Type := List ℤ → Option (α × List ℤ)

def RandM.pure (a : α) : RandM α := fun t => some (a, t)

def RandM.bind (m : RandM α) (f : α → RandM β) : RandM β := fun t =>
  match m t with
  | none => none
  | some (a, t') => f a t'

instance : Monad RandM where
  pure := RandM.pure
  bind := RandM.bind

/-- The failing computation (tape/fuel exhaustion). -/
def RandM.fail : RandM α := fun _ => none

@[simp] theorem RandM.pure_apply (a : α) (t : List ℤ) :
    (Pure.pure a : RandM α) t = some (a, t) := rfl

@[simp] theorem RandM.bind_apply (m : RandM α) (f : α → RandM β) (t : List ℤ) :
    (m >>= f) t =
      match m t with
      | none => none
      | some (a, t') => f a t' := rfl

@[simp] theorem RandM.fail_apply (t : List ℤ) : (RandM.fail : RandM α) t = none := rfl

/-- Python `random.randint(lo, hi)`: inclusive-range uniform integer.  One tape entry
is consumed and reduced into the range; with `lo ≤ hi` the result always lies
in `[lo, hi]`. -/
def randInt (lo hi : ℤ) : RandM ℤ := fun t =>
  match t with
  | [] => none
  | v :: rest => some (lo + v.emod (hi - lo + 1), rest)

@[simp] theorem randInt_nil (lo hi : ℤ) : randInt lo hi [] = none := rfl

@[simp] theorem randInt_cons (lo hi v : ℤ) (rest : List ℤ) :
    randInt lo hi (v :: rest) = some (lo + v.emod (hi - lo + 1), rest) := rfl

theorem randInt_mem_range {lo hi : ℤ} (hle : lo ≤ hi) {t : List ℤ} {v : ℤ}
    {rest : List ℤ} (h : randInt lo hi t = some (v, rest)) : lo ≤ v ∧ v ≤ hi := by
  match t with
  | [] => simp at h
  | w :: t' =>
    simp only [randInt_cons, Option.some.injEq, Prod.mk.injEq] at h
    have hpos : (0 : ℤ) < hi - lo + 1 := by omega
    have h1 : 0 ≤ w.emod (hi - lo + 1) := Int.emod_nonneg w (by omega)
    have h2 : w.emod (hi - lo + 1) < hi - lo + 1 := Int.emod_lt_of_pos w hpos
    omega

/-- Python `random.random() < p`: one tape entry is consumed and mapped to a rational
sample `u / 1000` in `[0, 1)`; the comparison with `p` decides the branch.
It is computed in the equivalent cross-multiplied integer form
`u * p.den < p.num * 1000` (see `randBelow_eq_ratCompare`). -/
def randBelow (p : ℚ) : RandM Bool := fun t =>
  match t with
  | [] => none
  | v :: rest => some (decide (v.emod 1000 * (p.den : ℤ) < p.num * 1000), rest)

@[simp] theorem randBelow_nil (p : ℚ) : randBelow p [] = none := rfl

@[simp] theorem randBelow_cons (p : ℚ) (v : ℤ) (rest : List ℤ) :
    randBelow p (v :: rest) =
      some (decide (v.emod 1000 * (p.den : ℤ) < p.num * 1000), rest) := rfl

/-- The integer form of the sample comparison agrees with the rational
comparison `u / 1000 < p` of the source. -/
theorem randBelow_eq_ratCompare (p : ℚ) (v : ℤ) (rest : List ℤ) :
    randBelow p (v :: rest) = some (decide ((v.emod 1000 : ℚ) / 1000 < p), rest) := by
  rw [randBelow_cons]
  simp only [Option.some.injEq, Prod.mk.injEq]
  refine ⟨?_, trivial⟩
  rw [decide_eq_decide]
  have hden : (0 : ℚ) < (p.den : ℚ) := by exact_mod_cast p.den_pos
  rw [div_lt_iff₀ (by norm_num : (0 : ℚ) < 1000)]
  constructor
  · intro h
    have h' : ((v.emod 1000 : ℤ) : ℚ) * (p.den : ℚ) < ((p.num : ℚ)) * 1000 := by
      exact_mod_cast h
    rw [show (p : ℚ) = (p.num : ℚ) / (p.den : ℚ) by exact_mod_cast (Rat.num_div_den p).symm]
    rw [div_mul_eq_mul_div, lt_div_iff₀ hden]
    linarith
  · intro h
    rw [show (p : ℚ) = (p.num : ℚ) / (p.den : ℚ) by exact_mod_cast (Rat.num_div_den p).symm,
      div_mul_eq_mul_div, lt_div_iff₀ hden] at h
    exact_mod_cast h

/-- A polynomial in the structural form the generator builds:
`coeff * x ^ monDeg * ∏ (x - a)` over `a ∈ factors`.  This is the shape of
every sympy expression `_generate_polynomial` produces (and of the
numerator/denominator after the optional shared hole factor is multiplied
in). -/
structure Poly where
  factors : List ℤ
  coeff : ℤ
  monDeg : ℕ
deriving Repr, DecidableEq

/-- The sympy comparison `polynomial == 0`: an expression of this structural
shape is the zero polynomial exactly when its monomial coefficient is 0
(monic linear factors are never zero). -/
def Poly.isZero (p : Poly) : Bool := p.coeff = 0

/-- Total degree of the structural polynomial (when `coeff ≠ 0`). -/
def Poly.deg (p : Poly) : ℕ := p.monDeg + p.factors.length

/-- Exact evaluation over ℚ: `coeff * x^monDeg * ∏ (x - a)`. -/
def Poly.evalQ (p : Poly) (x : ℚ) : ℚ :=
  (p.coeff : ℚ) * x ^ p.monDeg * (p.factors.map (fun (a : ℤ) => x - (a : ℚ))).prod

/-- sympy `solve(p, x)`: the distinct roots of
`coeff * x^monDeg * ∏ (x - a)`, namely `0` (when the monomial has positive
degree) together with the factor roots.  All roots of such an expression are
real integers, so the `is_real` filter in the Python code keeps all of them. -/
def Poly.roots (p : Poly) : List ℤ :=
  ((if p.monDeg > 0 then [0] else []) ++ p.factors).dedup

theorem Poly.mem_roots {p : Poly} {z : ℤ} :
    z ∈ p.roots ↔ (0 < p.monDeg ∧ z = 0) ∨ z ∈ p.factors := by
  unfold Poly.roots
  rcases Nat.eq_zero_or_pos p.monDeg with h | h
  · simp [h]
  · simp [h, List.mem_dedup, eq_comm]

/-- Per-level difficulty bounds (`difficulty_configs` in `__init__`). -/
structure Config where
  max_degree : ℕ
  max_factors : ℕ
  holes_prob : ℚ
deriving Repr, DecidableEq

/-- The `difficulty_configs` dictionary.  The hole probabilities 0.3, 0.4,
0.5, 0.6, 0.7 are written as exact rationals in lowest terms
(`Rat.mk'` literals, so they evaluate by kernel reduction). -/
def difficulty_configs (d : ℤ) : Option Config :=
  if d = 1 then some ⟨2, 2, ⟨3, 10, by norm_num, by norm_num⟩⟩
  else if d = 2 then some ⟨3, 3, ⟨2, 5, by norm_num, by norm_num⟩⟩
  else if d = 3 then some ⟨4, 4, ⟨1, 2, by norm_num, by norm_num⟩⟩
  else if d = 4 then some ⟨5, 5, ⟨3, 5, by norm_num, by norm_num⟩⟩
  else if d = 5 then some ⟨6, 6, ⟨7, 10, by norm_num, by norm_num⟩⟩
  else none

/-- Embeds `self.difficulty_configs.get(difficulty, self.difficulty_configs[1])`. -/
def configFor (d : ℤ) : Config :=
  (difficulty_configs d).getD ⟨2, 2, ⟨3, 10, by norm_num, by norm_num⟩⟩

/-- Embeds `_generate_linear_factor`: draws `a = randint(-5, 5)` and returns the
factor `(x - a)`, represented by its root `a`. -/
def generate_linear_factor : RandM ℤ := randInt (-5) 5

/-- Draws `n` linear-factor roots (the `for _ in range(factors)` loop). -/
def drawFactors : ℕ → RandM (List ℤ)
  | 0 => Pure.pure []
  | n + 1 => do
    let a ← generate_linear_factor
    let rest ← drawFactors n
    Pure.pure (a :: rest)

/-- Embeds `_generate_polynomial(max_degree, max_factors)`: picks a total degree in
`1..max_degree`, a factor count in `1..min(max_factors, degree)`, multiplies
in that many linear factors, and — when `degree > factors` — one monomial
`coeff * x ^ (degree - factors)` whose coefficient is drawn from `[-5, 5]`
and replaced by `1` when the draw is `0`. -/
def generate_polynomial (max_degree max_factors : ℕ) : RandM Poly := do
  let degree ← randInt 1 max_degree
  let factors ← randInt 1 (min (max_factors : ℤ) degree)
  let roots ← drawFactors factors.toNat
  let remaining_degree := degree - factors
  if remaining_degree > 0 then
    let c ← randInt (-5) 5
    let coeff := if c = 0 then 1 else c
    Pure.pure ⟨roots, coeff, remaining_degree.toNat⟩
  else
    Pure.pure ⟨roots, 1, 0⟩

/-- Modelled from the spec: the same polynomial builder but with the
coefficient "resampled if 0" (the spec's wording), instead of the source's
replacement of a drawn 0 by 1.  Used only to compare against
`generate_polynomial`. -/
def generate_polynomial_resample (max_degree max_factors : ℕ) : RandM Poly := do
  let degree ← randInt 1 max_degree
  let factors ← randInt 1 (min (max_factors : ℤ) degree)
  let roots ← drawFactors factors.toNat
  let remaining_degree := degree - factors
  if remaining_degree > 0 then
    let c ← resampleNonzero 100
    Pure.pure ⟨roots, c, remaining_degree.toNat⟩
  else
    Pure.pure ⟨roots, 1, 0⟩
where
  /-- draw from `[-5,5]` until nonzero, with fuel. -/
  resampleNonzero : ℕ → RandM ℤ
    | 0 => RandM.fail
    | n + 1 => do
      let c ← randInt (-5) 5
      if c = 0 then resampleNonzero n else Pure.pure c

/-- The pre-simplification numerator/denominator pair returned by
`generate_function` (the simplified quotient, its string and LaTeX forms are
determined by this pair and carry no extra semantic content). -/
structure FunctionSpec where
  numerator : Poly
  denominator : Poly
deriving Repr, DecidableEq

/-- The `while denominator == 0: regenerate` loop of `generate_function`,
modelled with fuel. -/
def ensureNonzeroDen (cfg : Config) : ℕ → Poly → RandM Poly
  | 0, d => if d.isZero then RandM.fail else Pure.pure d
  | n + 1, d =>
    if d.isZero then do
      let d' ← generate_polynomial cfg.max_degree cfg.max_factors
      ensureNonzeroDen cfg n d'
    else Pure.pure d

/-- Embeds `generate_function(difficulty)`: look up the config (falling back to
level 1), build numerator and denominator, regenerate the denominator while
it is the zero polynomial, and with probability `holes_prob` multiply one
shared linear factor into both. -/
def generate_function (difficulty : ℤ) : RandM FunctionSpec := do
  let config := configFor difficulty
  let numerator ← generate_polynomial config.max_degree config.max_factors
  let denominator ← generate_polynomial config.max_degree config.max_factors
  let denominator ← ensureNonzeroDen config 100 denominator
  let addHole ← randBelow config.holes_prob
  if addHole then
    let hole_factor ← generate_linear_factor
    Pure.pure ⟨⟨numerator.factors ++ [hole_factor], numerator.coeff, numerator.monDeg⟩,
               ⟨denominator.factors ++ [hole_factor], denominator.coeff, denominator.monDeg⟩⟩
  else
    Pure.pure ⟨numerator, denominator⟩

/-- Outcome of sympy's `limit(num/den, x, oo)` on a rational function of two
structural polynomials: a finite rational value, `+oo`, or `-oo`.  `none`
models the exception path (the `except:` clause of
`_find_horizontal_asymptote`), which for such expressions can only arise when
the denominator is the zero polynomial (the quotient is sympy `zoo` and the
limit/`float` machinery fails). -/
inductive LimRes
  | fin (q : ℚ)
  | posInf
  | negInf
deriving Repr, DecidableEq

/-- sympy's exact limit of `num/den` at `x → +∞`: degree comparison with
leading coefficients (all structural factors are monic, so the leading
coefficient is `coeff`). -/
def limitAtTop (num den : Poly) : Option LimRes :=
  if den.coeff = 0 then none
  else if num.coeff = 0 then some (.fin 0)
  else if num.deg < den.deg then some (.fin 0)
  else if num.deg = den.deg then some (.fin ((num.coeff : ℚ) / (den.coeff : ℚ)))
  else if 0 < num.coeff * den.coeff then some .posInf
  else some .negInf

/-- The branch structure of `_find_horizontal_asymptote` applied to a limit
outcome: a finite real limit is returned as the asymptote value, `±oo` gives
`None` (no horizontal asymptote), and any failure (`except:` — and likewise
the residual `else` branch, unreachable for these expressions) gives `0`. -/
def haOfLimit : Option LimRes → Option ℚ
  | some (.fin q) => some q
  | some .posInf => none
  | some .negInf => none
  | none => some 0

/-- Embeds `_find_horizontal_asymptote(num, den)`. -/
def find_horizontal_asymptote (num den : Poly) : Option ℚ :=
  haOfLimit (limitAtTop num den)

/-- All linear roots of the structural polynomial with multiplicity, the
monomial `x^monDeg` folded in as `monDeg` copies of the root `0`.  Used to
model sympy's exact cancellation (`simplify`) of the quotient. -/
def Poly.allFactors (p : Poly) : List ℤ :=
  List.replicate p.monDeg 0 ++ p.factors

/-- Evaluating the *simplified* quotient (sympy `simplify(num/den)`, which
cancels the polynomial gcd exactly) at `x = 0`, as `float(func.subs(x, 0))`
does.  After full cancellation the residual denominator vanishes at 0 exactly
when the root 0 survives in the denominator's factor multiset; in that case
the substitution yields sympy `zoo` and `float` raises — modelled as `none`.
Cancelling the integer content as well would rescale numerator and
denominator identically and change neither the ratio nor the vanishing
test. -/
def simplifiedEvalAtZero (s : FunctionSpec) : Option ℚ :=
  let nf := s.numerator.allFactors.diff s.denominator.allFactors
  let df := s.denominator.allFactors.diff s.numerator.allFactors
  if 0 ∈ df then none
  else some (((s.numerator.coeff : ℚ) * (nf.map (fun (a : ℤ) => -(a : ℚ))).prod) /
             ((s.denominator.coeff : ℚ) * (df.map (fun (a : ℤ) => -(a : ℚ))).prod))

/-- The record `analyze_function` returns.  Coordinate-valued features are
lists of exact integers (the Python `float(root)` conversions are exact for
these integer roots). -/
structure FeatureSet where
  vertical_asymptotes : List ℤ
  holes : List ℤ
  horizontal_asymptote : Option ℚ
  x_intercepts : List ℤ
  y_intercept : Option ℚ
deriving Repr, DecidableEq

/-- Embeds `analyze_function(function_dict)`: classify each real denominator root as
a hole (also a numerator root, exact membership) or a vertical asymptote;
x-intercepts are the real numerator roots not already classified as holes;
the horizontal asymptote comes from the limit at `+∞`; the y-intercept from
evaluating the simplified quotient at 0 (`None` when that evaluation
raises). -/
def analyze_function (s : FunctionSpec) : FeatureSet :=
  let den_roots := s.denominator.roots
  let num_roots := s.numerator.roots
  let holes := den_roots.filter (fun r => r ∈ num_roots)
  { vertical_asymptotes := den_roots.filter (fun r => r ∉ num_roots)
    holes := holes
    horizontal_asymptote := find_horizontal_asymptote s.numerator s.denominator
    x_intercepts := num_roots.filter (fun r => r ∉ holes)
    y_intercept := simplifiedEvalAtZero s }

/-- Wraps `analyze_function` in an explicit exception monad: the only operations of
the Python body that can raise on expressions of this structural shape are
wrapped in `try/except` (the limit computation and the y-intercept `float`),
so the embedded analysis always returns `ok`.  Kept as `Except` to state the
never-raises claim. -/
def analyze_function_exc (s : FunctionSpec) : Except String FeatureSet :=
  Except.ok (analyze_function s)

/-- A value placed in the `choices` list before stringification.  The Python
code mixes lists of floats (the feature values, e.g. `[3.0]`), lists of ints
(the distractors, e.g. `[4]`), bare floats and ints (horizontal-asymptote
kind) and the literal string `"None"`; the int/float distinction is kept
because `str` renders them differently while `==` compares them by value. -/
inductive ChoiceVal
  | noneMark
  | floatList (l : List ℤ)
  | intList (l : List ℤ)
  | floatNum (q : ℚ)
  | intNum (z : ℤ)
deriving Repr, DecidableEq

/-- Python `str` of an int. -/
def intStr (z : ℤ) : String := toString z

/-- Python `str` of a float holding an exact integer value. -/
def floatIntStr (z : ℤ) : String := toString z ++ ".0"

/-- Python `str` of a list given its elements' renderings. -/
def listStr (elems : List String) : String :=
  "[" ++ String.intercalate ", " elems ++ "]"

/-- Python `str` of the float obtained from an exact rational: exact for
integer-valued floats (the only values any claim below renders); a
non-integer value passes through an inexact double conversion and is
abstracted with a marker. -/
def floatStr (q : ℚ) : String :=
  if q.den = 1 then toString q.num ++ ".0" else "float:" ++ toString q

/-- The `str(choice)` conversion applied to every entry of `choices` (the
`if choice != "None"` guard in the source is redundant: `str` of the marker
is the marker itself). -/
def ChoiceVal.pyStr : ChoiceVal → String
  | .noneMark => "None"
  | .floatList l => listStr (l.map floatIntStr)
  | .intList l => listStr (l.map intStr)
  | .floatNum q => floatStr q
  | .intNum z => intStr z

/-- Presentational rendering of a structural polynomial (stands for sympy's
display string; the spec gives the printable form no semantic weight). -/
def Poly.str (p : Poly) : String :=
  toString p.coeff ++ "*x^" ++ toString p.monDeg ++
    String.join (p.factors.map (fun a => "*(x - " ++ toString a ++ ")"))

/-- Embeds `function_dict['function_str']`: the printable form of the simplified
quotient (presentational only). -/
def FunctionSpec.function_str (s : FunctionSpec) : String :=
  "(" ++ s.numerator.str ++ ")/(" ++ s.denominator.str ++ ")"

/-- Python `random.shuffle`, modelled with fuel equal to the list length: each step
draws an index, moves that element to the front and shuffles the rest.  The
output is always a permutation of the input; claims never depend on which
permutation a given tape selects. -/
def shuffleFuel [DecidableEq α] : ℕ → List α → RandM (List α)
  | 0, l => Pure.pure l
  | _ + 1, [] => Pure.pure []
  | n + 1, a :: rest => do
    let j ← randInt 0 ((a :: rest).length - 1)
    let e := (a :: rest).getD j.toNat a
    let tail ← shuffleFuel n ((a :: rest).erase e)
    Pure.pure (e :: tail)

def shuffle [DecidableEq α] (l : List α) : RandM (List α) := shuffleFuel l.length l

/-- The returned question record. -/
structure Question where
  question : String
  choices : List String
  correct_answer : String
  explanation : String
deriving Repr, DecidableEq

/-- Python `==` between an int and a list: always `False`. -/
def pyEqIntList (_ : ℤ) (_ : List ℤ) : Bool := false

/-- Python `wrong in wrong_answers` in `_generate_va_question`, where `wrong`
is an int and `wrong_answers` a list of singleton lists: `in` compares the
int against each element list with `==`, which never holds. -/
def pyIntMemListOfLists (w : ℤ) (ws : List (List ℤ)) : Bool :=
  ws.any (fun l => pyEqIntList w l)

/-- The `while wrong in correct_answer or wrong in wrong_answers: wrong =
random.randint(-5, 5)` retry loop of `_generate_va_question`, with fuel. -/
def retryVAWrong (correct : List ℤ) (acc : List (List ℤ)) : ℕ → ℤ → RandM ℤ
  | 0, w =>
    if w ∈ correct ∨ pyIntMemListOfLists w acc then RandM.fail else Pure.pure w
  | n + 1, w =>
    if w ∈ correct ∨ pyIntMemListOfLists w acc then do
      let w' ← randInt (-5) 5
      retryVAWrong correct acc n w'
    else Pure.pure w

/-- The `for _ in range(3)` loop of `_generate_va_question`: each iteration
draws an int, retries it against the correct list (and, vacuously, against
the accumulated singleton lists), and appends the singleton `[wrong]`. -/
def vaWrongLoop (correct : List ℤ) : ℕ → List (List ℤ) → RandM (List (List ℤ))
  | 0, acc => Pure.pure acc
  | k + 1, acc => do
    let w0 ← randInt (-5) 5
    let w ← retryVAWrong correct acc 100 w0
    vaWrongLoop correct k (acc ++ [[w]])

/-- Embeds `_generate_va_question(function_dict, analysis)`. -/
def generate_va_question (s : FunctionSpec) (analysis : FeatureSet) :
    RandM Question := do
  let correct := analysis.vertical_asymptotes
  let wrong_answers ← vaWrongLoop correct 3 []
  let (correctV, wrongs) :=
    if correct = [] then
      (ChoiceVal.noneMark, ([[-1], [0], [1]] : List (List ℤ)).map ChoiceVal.intList)
    else
      (ChoiceVal.floatList correct, wrong_answers.map ChoiceVal.intList)
  let choices ← shuffle (correctV :: wrongs)
  Pure.pure
    { question := "What are the vertical asymptotes of f(x) = " ++
        s.function_str ++ "?"
      choices := choices.map ChoiceVal.pyStr
      correct_answer := correctV.pyStr
      explanation := "Vertical asymptotes occur where the denominator equals zero but the numerator doesn't." }

/-- The retry loop shared by `_generate_x_intercept_question` and
`_generate_holes_question`: `wrong` is a singleton list, compared by list
equality against the correct list and by genuine membership against the
accumulated wrong lists. -/
def retryListWrong (correct : List ℤ) (acc : List (List ℤ)) :
    ℕ → List ℤ → RandM (List ℤ)
  | 0, w => if w = correct ∨ w ∈ acc then RandM.fail else Pure.pure w
  | n + 1, w =>
    if w = correct ∨ w ∈ acc then do
      let v ← randInt (-5) 5
      retryListWrong correct acc n [v]
    else Pure.pure w

/-- The `for _ in range(3)` loop of the x-intercept / holes builders. -/
def listWrongLoop (correct : List ℤ) : ℕ → List (List ℤ) → RandM (List (List ℤ))
  | 0, acc => Pure.pure acc
  | k + 1, acc => do
    let v ← randInt (-5) 5
    let w ← retryListWrong correct acc 100 [v]
    listWrongLoop correct k (acc ++ [w])

/-- Embeds `_generate_x_intercept_question(function_dict, analysis)`. -/
def generate_x_intercept_question (s : FunctionSpec) (analysis : FeatureSet) :
    RandM Question := do
  let correct := analysis.x_intercepts
  let wrong_answers ← listWrongLoop correct 3 []
  let (correctV, wrongs) :=
    if correct = [] then
      (ChoiceVal.noneMark, ([[-1], [0], [1]] : List (List ℤ)).map ChoiceVal.intList)
    else
      (ChoiceVal.floatList correct, wrong_answers.map ChoiceVal.intList)
  let choices ← shuffle (correctV :: wrongs)
  Pure.pure
    { question := "What are the x-intercepts of f(x) = " ++ s.function_str ++ "?"
      choices := choices.map ChoiceVal.pyStr
      correct_answer := correctV.pyStr
      explanation := "X-intercepts occur where the numerator equals zero but the denominator doesn't." }

/-- Embeds `_generate_holes_question(function_dict, analysis)`. -/
def generate_holes_question (s : FunctionSpec) (analysis : FeatureSet) :
    RandM Question := do
  let correct := analysis.holes
  let wrong_answers ← listWrongLoop correct 3 []
  let (correctV, wrongs) :=
    if correct = [] then
      (ChoiceVal.noneMark, ([[-1], [0], [1]] : List (List ℤ)).map ChoiceVal.intList)
    else
      (ChoiceVal.floatList correct, wrong_answers.map ChoiceVal.intList)
  let choices ← shuffle (correctV :: wrongs)
  Pure.pure
    { question := "Where are the holes in f(x) = " ++ s.function_str ++ "?"
      choices := choices.map ChoiceVal.pyStr
      correct_answer := correctV.pyStr
      explanation := "Holes occur where both numerator and denominator equal zero." }

/-- The `while wrong == correct_answer or wrong in wrong_answers` retry loop
of `_generate_ha_question`, with fuel; redraws are `correct + randint(-3, 3)`. -/
def retryHAWrong (correct : ℚ) (acc : List ℚ) : ℕ → ℚ → RandM ℚ
  | 0, w => if w = correct ∨ w ∈ acc then RandM.fail else Pure.pure w
  | n + 1, w =>
    if w = correct ∨ w ∈ acc then do
      let d ← randInt (-3) 3
      retryHAWrong correct acc n (correct + d)
    else Pure.pure w

/-- The `for i in range(3)` loop of `_generate_ha_question`. -/
def haWrongLoop (correct : ℚ) : ℕ → List ℚ → RandM (List ℚ)
  | 0, acc => Pure.pure acc
  | k + 1, acc => do
    let d ← randInt (-3) 3
    let w ← retryHAWrong correct acc 100 (correct + d)
    haWrongLoop correct k (acc ++ [w])

/-- Embeds `_generate_ha_question(function_dict, analysis)`: when the horizontal
asymptote is `None` the distractors are the fixed ints `0, 1, -1`; otherwise
three distinct perturbations `correct + randint(-3, 3)`. -/
def generate_ha_question (s : FunctionSpec) (analysis : FeatureSet) :
    RandM Question := do
  let (correctV, wrongs) ←
    match analysis.horizontal_asymptote with
    | none =>
      Pure.pure (ChoiceVal.noneMark, ([0, 1, -1] : List ℤ).map ChoiceVal.intNum)
    | some q => do
      let ws ← haWrongLoop q 3 []
      Pure.pure (ChoiceVal.floatNum q, ws.map ChoiceVal.floatNum)
  let choices ← shuffle (correctV :: wrongs)
  Pure.pure
    { question := "What is the horizontal asymptote of f(x) = " ++
        s.function_str ++ "?"
      choices := choices.map ChoiceVal.pyStr
      correct_answer := correctV.pyStr
      explanation := "Horizontal asymptotes depend on the degrees of numerator and denominator." }

/-- The names of the four feature kinds (`question_types` in the source). -/
def question_types : List String :=
  ["vertical_asymptotes", "horizontal_asymptote", "x_intercepts", "holes"]

/-- The `questions` dictionary of `generate_multiple_choice_question`: the
builder registered for a kind name, if any. -/
def namedBuilder (s : FunctionSpec) (analysis : FeatureSet)
    (question_type : String) : Option (RandM Question) :=
  if question_type = "vertical_asymptotes" then some (generate_va_question s analysis)
  else if question_type = "horizontal_asymptote" then some (generate_ha_question s analysis)
  else if question_type = "x_intercepts" then some (generate_x_intercept_question s analysis)
  else if question_type = "holes" then some (generate_holes_question s analysis)
  else none

/-- Embeds `_generate_random_question`: `random.choice` over the four kind names,
then the recursive `generate_multiple_choice_question` call on the chosen
name, which always finds it in the dictionary. -/
def generate_random_question (s : FunctionSpec) (analysis : FeatureSet) :
    RandM Question := do
  let i ← randInt 0 3
  let question_type := question_types.getD i.toNat ""
  (namedBuilder s analysis question_type).getD RandM.fail

/-- Embeds `generate_multiple_choice_question(function_dict, analysis,
question_type)`: dispatch on the kind name, with every unregistered name
(including the "random" sentinel) falling through to the random kind. -/
def generate_multiple_choice_question (s : FunctionSpec) (analysis : FeatureSet)
    (question_type : String) : RandM Question :=
  match namedBuilder s analysis question_type with
  | some b => b
  | none => generate_random_question s analysis

/-! ### Real-polynomial semantics of the structural form

`Poly.toR` is the real polynomial a structural `Poly` denotes; the analytic
claims (real roots, limit at infinity) are stated against it. -/

open Polynomial in
/-- The real polynomial `coeff * x^monDeg * ∏ (x - a)` denoted by a
structural `Poly`. -/
noncomputable def Poly.toR (p : Poly) : Polynomial ℝ :=
  C (p.coeff : ℝ) * (X ^ p.monDeg * (p.factors.map (fun (a : ℤ) => X - C (a : ℝ))).prod)

open Polynomial in
theorem monic_factorsProd (l : List ℤ) :
    ((l.map fun (a : ℤ) => (X : Polynomial ℝ) - C (a : ℝ))).prod.Monic := by
  induction l with
  | nil => simp [monic_one]
  | cons a rest ih => simpa using (monic_X_sub_C (a : ℝ)).mul ih

open Polynomial in
theorem natDegree_factorsProd (l : List ℤ) :
    ((l.map fun (a : ℤ) => (X : Polynomial ℝ) - C (a : ℝ))).prod.natDegree = l.length := by
  induction l with
  | nil => simp
  | cons a rest ih =>
    simp only [List.map_cons, List.prod_cons]
    rw [(monic_X_sub_C (a : ℝ)).natDegree_mul (monic_factorsProd rest),
      natDegree_X_sub_C, ih, List.length_cons]
    omega

open Polynomial in
theorem monic_tail (p : Poly) :
    ((X : Polynomial ℝ) ^ p.monDeg *
      (p.factors.map (fun (a : ℤ) => X - C (a : ℝ))).prod).Monic :=
  (monic_X_pow p.monDeg).mul (monic_factorsProd p.factors)

open Polynomial in
theorem Poly.toR_ne_zero {p : Poly} (h : p.coeff ≠ 0) : p.toR ≠ 0 := by
  unfold Poly.toR
  exact mul_ne_zero (by simpa using h) (monic_tail p).ne_zero

open Polynomial in
theorem Poly.toR_natDegree {p : Poly} (h : p.coeff ≠ 0) :
    p.toR.natDegree = p.deg := by
  unfold Poly.toR
  rw [natDegree_C_mul (by simpa using h),
    (monic_X_pow p.monDeg).natDegree_mul (monic_factorsProd p.factors),
    natDegree_X_pow, natDegree_factorsProd]
  rfl

open Polynomial in
theorem Poly.toR_leadingCoeff (p : Poly) : p.toR.leadingCoeff = (p.coeff : ℝ) := by
  unfold Poly.toR
  rw [leadingCoeff_mul, leadingCoeff_C, (monic_tail p).leadingCoeff, mul_one]

open Polynomial in
theorem Poly.toR_eval (p : Poly) (x : ℝ) :
    p.toR.eval x =
      (p.coeff : ℝ) * x ^ p.monDeg * (p.factors.map (fun (a : ℤ) => x - (a : ℝ))).prod := by
  unfold Poly.toR
  rw [eval_mul, eval_mul, eval_pow, eval_C, eval_X, eval_list_prod, ← mul_assoc,
    List.map_map]
  congr 2
  apply List.map_congr_left
  intro a _
  simp

open Polynomial in
/-- Root characterisation of the structural form: for `coeff ≠ 0`, a real
`r` is a root exactly when `r = 0` under a positive monomial degree, or `r`
is one of the integer factor roots. -/
theorem Poly.toR_isRoot_iff {p : Poly} (h : p.coeff ≠ 0) (r : ℝ) :
    p.toR.IsRoot r ↔ (0 < p.monDeg ∧ r = 0) ∨ ∃ a ∈ p.factors, r = (a : ℝ) := by
  have hc : (p.coeff : ℝ) ≠ 0 := Int.cast_ne_zero.2 h
  rw [IsRoot, Poly.toR_eval]
  constructor
  · intro h0
    rcases mul_eq_zero.1 h0 with h1 | h2
    · rcases mul_eq_zero.1 h1 with hcc | hx
      · exact absurd hcc hc
      · have hm : p.monDeg ≠ 0 := by
          intro hm0
          rw [hm0, pow_zero] at hx
          exact one_ne_zero hx
        exact Or.inl ⟨Nat.pos_of_ne_zero hm, (pow_eq_zero_iff hm).1 hx⟩
    · obtain ⟨a, ha, hra⟩ := List.mem_map.1 (List.prod_eq_zero_iff.1 h2)
      exact Or.inr ⟨a, ha, sub_eq_zero.1 hra⟩
  · rintro (⟨hm, rfl⟩ | ⟨a, ha, rfl⟩)
    · rw [zero_pow (by omega : p.monDeg ≠ 0)]
      ring
    · apply mul_eq_zero_of_right
      exact List.prod_eq_zero (List.mem_map.2 ⟨a, ha, sub_self _⟩)

theorem Poly.mem_roots_iff_isRoot {p : Poly} (h : p.coeff ≠ 0) (z : ℤ) :
    z ∈ p.roots ↔ p.toR.IsRoot (z : ℝ) := by
  rw [Poly.toR_isRoot_iff h, Poly.mem_roots]
  constructor
  · rintro (⟨hm, rfl⟩ | hz)
    · exact Or.inl ⟨hm, by norm_num⟩
    · exact Or.inr ⟨z, hz, rfl⟩
  · rintro (⟨hm, hz⟩ | ⟨a, ha, hza⟩)
    · exact Or.inl ⟨hm, by exact_mod_cast hz⟩
    · have hz : z = a := by exact_mod_cast hza
      exact Or.inr (hz ▸ ha)

/-! ### Claims -/

/-- C10: the difficulty table is `max_degree = level+1`, `max_factors =
level+1`, `holes_prob = 0.2 + 0.1·level` on levels 1–5, and all three fields
are strictly monotone in the level. -/
theorem C10_difficulty_table_monotone :
    (∀ l : ℤ, 1 ≤ l → l ≤ 5 →
      ((configFor l).max_degree : ℤ) = l + 1 ∧
      ((configFor l).max_factors : ℤ) = l + 1 ∧
      (configFor l).holes_prob = 2/10 + (l : ℚ)/10) ∧
    (∀ i j : ℤ, 1 ≤ i → i < j → j ≤ 5 →
      (configFor i).max_degree < (configFor j).max_degree ∧
      (configFor i).max_factors < (configFor j).max_factors ∧
      (configFor i).holes_prob < (configFor j).holes_prob) := by
  constructor
  · intro l h1 h5
    interval_cases l <;>
      norm_num [configFor, difficulty_configs, Rat.mk'_eq_divInt, Rat.divInt_eq_div]
  · intro i j h1 hij h5
    have h1i : 1 ≤ i := h1
    have h5i : i ≤ 4 := by omega
    have h2j : 2 ≤ j := by omega
    interval_cases i <;> interval_cases j <;>
      norm_num [configFor, difficulty_configs, Rat.mk'_eq_divInt, Rat.divInt_eq_div]

theorem C10_witness :
    ((configFor 2).max_degree : ℤ) = 3 ∧
    (configFor 2).max_degree < (configFor 5).max_degree := by
  refine ⟨(C10_difficulty_table_monotone.1 2 (by norm_num) (by norm_num)).1, ?_⟩
  exact (C10_difficulty_table_monotone.2 2 5 (by norm_num) (by norm_num)
    (by norm_num)).1

/-- C5: for every analysed spec, no value is both a hole and a vertical
asymptote, no value is both a hole and an x-intercept, and the x-intercepts
are exactly the numerator roots not classified as holes. -/
theorem C5_holes_disjoint_from_asymptotes_and_intercepts :
    ∀ (s : FunctionSpec) (z : ℤ),
      ¬(z ∈ (analyze_function s).holes ∧
          z ∈ (analyze_function s).vertical_asymptotes) ∧
      ¬(z ∈ (analyze_function s).holes ∧ z ∈ (analyze_function s).x_intercepts) ∧
      (z ∈ (analyze_function s).x_intercepts ↔
        z ∈ s.numerator.roots ∧ z ∉ (analyze_function s).holes) := by
  intro s z
  simp only [analyze_function, List.mem_filter, decide_eq_true_eq, decide_not,
    Bool.not_eq_true', decide_eq_false_iff_not]
  constructor
  · rintro ⟨⟨-, hin⟩, -, hnotin⟩
    exact hnotin hin
  constructor
  · rintro ⟨hh, -, hnot⟩
    exact hnot hh
  · tauto

/-- C3: for every spec with nonzero structural coefficients and every real
root `r` of the pre-simplification denominator, `r` is an integer value `z`
that `analyze_function` classifies as a hole exactly when `r` is also a root
of the pre-simplification numerator, and as a vertical asymptote otherwise
(exact membership, no tolerance). -/
theorem C3_hole_vs_asymptote_classification :
    ∀ (s : FunctionSpec) (r : ℝ),
    s.numerator.coeff ≠ 0 → s.denominator.coeff ≠ 0 →
    s.denominator.toR.IsRoot r →
    ∃ z : ℤ, r = (z : ℝ) ∧
      (z ∈ (analyze_function s).holes ↔ s.numerator.toR.IsRoot r) ∧
      (z ∈ (analyze_function s).vertical_asymptotes ↔
        ¬ s.numerator.toR.IsRoot r) := by
  intro s r hn hd hroot
  have hz : ∃ z : ℤ, r = (z : ℝ) ∧ z ∈ s.denominator.roots := by
    rcases (Poly.toR_isRoot_iff hd r).1 hroot with ⟨hm, rfl⟩ | ⟨a, ha, rfl⟩
    · exact ⟨0, by norm_num, Poly.mem_roots.2 (Or.inl ⟨hm, rfl⟩)⟩
    · exact ⟨a, rfl, Poly.mem_roots.2 (Or.inr ha)⟩
  obtain ⟨z, rfl, hzden⟩ := hz
  refine ⟨z, rfl, ?_, ?_⟩
  · rw [← Poly.mem_roots_iff_isRoot hn]
    simp [analyze_function, List.mem_filter, hzden]
  · rw [← Poly.mem_roots_iff_isRoot hn]
    simp [analyze_function, List.mem_filter, hzden]

theorem C3_witness :
    ∃ z : ℤ, (2 : ℝ) = (z : ℝ) ∧
      (z ∈ (analyze_function ⟨⟨[2], 1, 0⟩, ⟨[2, 3], 1, 0⟩⟩).holes ↔
        (⟨[2], 1, 0⟩ : Poly).toR.IsRoot (2 : ℝ)) ∧
      (z ∈ (analyze_function ⟨⟨[2], 1, 0⟩, ⟨[2, 3], 1, 0⟩⟩).vertical_asymptotes ↔
        ¬ (⟨[2], 1, 0⟩ : Poly).toR.IsRoot (2 : ℝ)) :=
  C3_hole_vs_asymptote_classification ⟨⟨[2], 1, 0⟩, ⟨[2, 3], 1, 0⟩⟩ 2
    (by decide) (by decide)
    (by
      rw [Polynomial.IsRoot, Poly.toR_eval]
      norm_num)

/-! ### Generator invariants -/

theorem drawFactors_length :
    ∀ (n : ℕ) {t : List ℤ} {l : List ℤ} {t' : List ℤ},
    drawFactors n t = some (l, t') → l.length = n := by
  intro n
  induction n with
  | zero =>
    intro t l t' h
    simp only [drawFactors, RandM.pure_apply, Option.some.injEq, Prod.mk.injEq] at h
    obtain ⟨rfl, rfl⟩ := h
    rfl
  | succ k ih =>
    intro t l t' h
    unfold drawFactors at h
    simp only [RandM.bind_apply] at h
    split at h
    · simp at h
    split at h
    · simp at h
    rename_i rest t2 hrest
    simp only [RandM.pure_apply, Option.some.injEq, Prod.mk.injEq] at h
    obtain ⟨rfl, rfl⟩ := h
    simp [ih hrest]

theorem ensureNonzeroDen_ok (cfg : Config) :
    ∀ (fuel : ℕ) (d0 : Poly) {t : List ℤ} {d : Poly} {t' : List ℤ},
    ensureNonzeroDen cfg fuel d0 t = some (d, t') → d.isZero = false := by
  intro fuel
  induction fuel with
  | zero =>
    intro d0 t d t' h
    unfold ensureNonzeroDen at h
    split at h
    · simp at h
    · rename_i hz
      simp only [RandM.pure_apply, Option.some.injEq, Prod.mk.injEq] at h
      obtain ⟨rfl, rfl⟩ := h
      simpa using hz
  | succ n ih =>
    intro d0 t d t' h
    unfold ensureNonzeroDen at h
    split at h
    · simp only [RandM.bind_apply] at h
      split at h
      · simp at h
      rename_i d1 t1 hd1
      exact ih d1 h
    · rename_i hz
      simp only [RandM.pure_apply, Option.some.injEq, Prod.mk.injEq] at h
      obtain ⟨rfl, rfl⟩ := h
      simpa using hz

/-- C9 (amended): every polynomial the builder returns carries exactly one
monomial slot whose coefficient is a nonzero integer in `[-5, 5]`; when no
monomial is multiplied in (`degree = factor count`) the coefficient is the
neutral 1, and a drawn 0 is replaced by 1 (not resampled). -/
theorem C9_polynomial_monomial_coefficient :
    ∀ (maxD maxF : ℕ), 1 ≤ maxD → 1 ≤ maxF →
    ∀ {t : List ℤ} {p : Poly} {t' : List ℤ},
    generate_polynomial maxD maxF t = some (p, t') →
    p.coeff ≠ 0 ∧ -5 ≤ p.coeff ∧ p.coeff ≤ 5 ∧
    (p.monDeg = 0 → p.coeff = 1) ∧ 0 < p.factors.length := by
  intro maxD maxF hD hF t p t' h
  unfold generate_polynomial at h
  simp only [RandM.bind_apply] at h
  split at h
  · simp at h
  rename_i degree t1 hdeg
  split at h
  · simp at h
  rename_i factors t2 hfac
  split at h
  · simp at h
  rename_i roots t3 hroots
  have hdegB : 1 ≤ degree ∧ degree ≤ (maxD : ℤ) :=
    randInt_mem_range (by exact_mod_cast hD) hdeg
  have hminB : (1 : ℤ) ≤ min (maxF : ℤ) degree := by
    have : (1 : ℤ) ≤ (maxF : ℤ) := by exact_mod_cast hF
    omega
  have hfacB : 1 ≤ factors ∧ factors ≤ min (maxF : ℤ) degree :=
    randInt_mem_range hminB hfac
  have hlen : roots.length = factors.toNat := drawFactors_length _ hroots
  have hlenpos : 0 < roots.length := by omega
  split at h
  · rename_i hrem
    simp only [RandM.bind_apply] at h
    split at h
    · simp at h
    rename_i c t4 hc
    have hcB : -5 ≤ c ∧ c ≤ 5 := randInt_mem_range (by norm_num) hc
    simp only [RandM.pure_apply, Option.some.injEq, Prod.mk.injEq] at h
    obtain ⟨rfl, rfl⟩ := h
    refine ⟨?_, ?_, ?_, ?_, hlenpos⟩
    · dsimp only
      split
      · exact one_ne_zero
      · rename_i h0; exact h0
    · dsimp only
      split <;> omega
    · dsimp only
      split <;> omega
    · intro hm
      dsimp only at hm
      omega
  · simp only [RandM.pure_apply, Option.some.injEq, Prod.mk.injEq] at h
    obtain ⟨rfl, rfl⟩ := h
    exact ⟨one_ne_zero, by norm_num, by norm_num, fun _ => rfl, hlenpos⟩

theorem C9_witness :
    (⟨[-5], 1, 0⟩ : Poly).coeff ≠ 0 ∧ -5 ≤ (⟨[-5], 1, 0⟩ : Poly).coeff ∧
    (⟨[-5], 1, 0⟩ : Poly).coeff ≤ 5 ∧
    ((⟨[-5], 1, 0⟩ : Poly).monDeg = 0 → (⟨[-5], 1, 0⟩ : Poly).coeff = 1) ∧
    0 < (⟨[-5], 1, 0⟩ : Poly).factors.length :=
  C9_polynomial_monomial_coefficient 2 2 (by norm_num) (by norm_num)
    (show generate_polynomial 2 2 [0, 0, 0] = some (⟨[-5], 1, 0⟩, []) by decide)

/-- C9 counterexample to the claim's "resampling" mechanism: on the same
random draws (degree 2, one factor, factor root -5, coefficient draw 0,
next draw 9), the source replaces the drawn 0 by 1 while the spec-worded
resampling variant draws again and gets 4 — the outputs differ. -/
theorem C9_counterexample :
    generate_polynomial 2 1 [1, 0, 0, 5, 9] ≠
      generate_polynomial_resample 2 1 [1, 0, 0, 5, 9] := by decide

/-- C7: for every difficulty (in range or not) and every tape on which
`generate_function` succeeds, the returned denominator is not the zero
polynomial (the `while denominator == 0` regeneration guard plus the shape of
the builder), also after the optional shared hole factor is multiplied in. -/
theorem C7_denominator_never_zero :
    ∀ (d : ℤ) {t : List ℤ} {s : FunctionSpec} {t' : List ℤ},
    generate_function d t = some (s, t') →
    s.denominator.isZero = false ∧ s.denominator.coeff ≠ 0 := by
  intro d t s t' h
  unfold generate_function at h
  simp only [RandM.bind_apply] at h
  split at h
  · simp at h
  rename_i num t1 hnum
  split at h
  · simp at h
  rename_i den0 t2 hden0
  split at h
  · simp at h
  rename_i den t3 hden
  have hdz : den.isZero = false := ensureNonzeroDen_ok _ _ _ hden
  have hdc : den.coeff ≠ 0 := by simpa [Poly.isZero] using hdz
  split at h
  · simp at h
  rename_i b t4 hb
  split at h
  · simp only [RandM.bind_apply] at h
    split at h
    · simp at h
    rename_i a t5 ha
    simp only [RandM.pure_apply, Option.some.injEq, Prod.mk.injEq] at h
    obtain ⟨rfl, rfl⟩ := h
    exact ⟨by simpa [Poly.isZero] using hdc, hdc⟩
  · simp only [RandM.pure_apply, Option.some.injEq, Prod.mk.injEq] at h
    obtain ⟨rfl, rfl⟩ := h
    exact ⟨hdz, hdc⟩

theorem C7_witness :
    (⟨⟨[-5], 1, 0⟩, ⟨[-5], 1, 0⟩⟩ : FunctionSpec).denominator.isZero = false ∧
    (⟨⟨[-5], 1, 0⟩, ⟨[-5], 1, 0⟩⟩ : FunctionSpec).denominator.coeff ≠ 0 :=
  C7_denominator_never_zero 1
    (show generate_function 1 [0, 0, 0, 0, 0, 0, 999] =
      some (⟨⟨[-5], 1, 0⟩, ⟨[-5], 1, 0⟩⟩, []) by decide)

theorem configFor_out_of_range {d : ℤ} (hd : ¬(1 ≤ d ∧ d ≤ 5)) :
    configFor d = configFor 1 := by
  unfold configFor difficulty_configs
  rw [if_neg (by omega), if_neg (by omega), if_neg (by omega), if_neg (by omega),
    if_neg (by omega), if_pos rfl]
  rfl

/-- C8: caller misuse is normalized, never rejected — an out-of-range
difficulty behaves exactly like level 1 (and hence still succeeds on a
suitable tape), and an unregistered feature-kind string falls through to the
random-kind path, which always dispatches to one of the four named kinds'
builders. -/
theorem C8_caller_misuse_normalized :
    (∀ d : ℤ, ¬(1 ≤ d ∧ d ≤ 5) →
      ∀ t : List ℤ, generate_function d t = generate_function 1 t) ∧
    (∀ d : ℤ, ¬(1 ≤ d ∧ d ≤ 5) →
      ∃ (t : List ℤ) (s : FunctionSpec) (t' : List ℤ),
        generate_function d t = some (s, t')) ∧
    (∀ (s : FunctionSpec) (an : FeatureSet) (qt : String), qt ∉ question_types →
      generate_multiple_choice_question s an qt = generate_random_question s an) ∧
    (∀ (s : FunctionSpec) (an : FeatureSet) (v : ℤ) (t : List ℤ),
      ∃ qt ∈ question_types, ∃ b, namedBuilder s an qt = some b ∧
        generate_random_question s an (v :: t) = b t) := by
  have hpart1 : ∀ d : ℤ, ¬(1 ≤ d ∧ d ≤ 5) →
      ∀ t : List ℤ, generate_function d t = generate_function 1 t := by
    intro d hd t
    unfold generate_function
    rw [configFor_out_of_range hd]
  refine ⟨hpart1, ?_, ?_, ?_⟩
  · intro d hd
    refine ⟨[0, 0, 0, 0, 0, 0, 999], ⟨⟨[-5], 1, 0⟩, ⟨[-5], 1, 0⟩⟩, [], ?_⟩
    rw [hpart1 d hd]
    decide
  · intro s an qt hqt
    unfold generate_multiple_choice_question
    have hnone : namedBuilder s an qt = none := by
      unfold namedBuilder
      simp only [question_types, List.mem_cons, List.not_mem_nil, or_false,
        not_or] at hqt
      rw [if_neg hqt.1, if_neg hqt.2.1, if_neg hqt.2.2.1, if_neg hqt.2.2.2]
    rw [hnone]
  · intro s an v t
    have h4 : v.emod 4 = 0 ∨ v.emod 4 = 1 ∨ v.emod 4 = 2 ∨ v.emod 4 = 3 := by
      show v % 4 = 0 ∨ v % 4 = 1 ∨ v % 4 = 2 ∨ v % 4 = 3
      omega
    unfold generate_random_question
    simp only [RandM.bind_apply, randInt_cons,
      show (3 : ℤ) - 0 + 1 = 4 by norm_num, zero_add]
    rcases h4 with h | h | h | h <;> rw [h]
    · exact ⟨"vertical_asymptotes", by simp [question_types], _, rfl, rfl⟩
    · exact ⟨"horizontal_asymptote", by simp [question_types], _, rfl, rfl⟩
    · exact ⟨"x_intercepts", by simp [question_types], _, rfl, rfl⟩
    · exact ⟨"holes", by simp [question_types], _, rfl, rfl⟩

theorem C8_witness :
    generate_function 99 [] = generate_function 1 [] ∧
    (∃ (t : List ℤ) (s : FunctionSpec) (t' : List ℤ),
      generate_function (-7) t = some (s, t')) ∧
    generate_multiple_choice_question ⟨⟨[1], 1, 0⟩, ⟨[2], 1, 0⟩⟩
        (analyze_function ⟨⟨[1], 1, 0⟩, ⟨[2], 1, 0⟩⟩) "random" =
      generate_random_question ⟨⟨[1], 1, 0⟩, ⟨[2], 1, 0⟩⟩
        (analyze_function ⟨⟨[1], 1, 0⟩, ⟨[2], 1, 0⟩⟩) ∧
    (∃ qt ∈ question_types, ∃ b,
      namedBuilder ⟨⟨[1], 1, 0⟩, ⟨[2], 1, 0⟩⟩
          (analyze_function ⟨⟨[1], 1, 0⟩, ⟨[2], 1, 0⟩⟩) qt = some b ∧
        generate_random_question ⟨⟨[1], 1, 0⟩, ⟨[2], 1, 0⟩⟩
          (analyze_function ⟨⟨[1], 1, 0⟩, ⟨[2], 1, 0⟩⟩) (6 :: [])  = b []) :=
  ⟨C8_caller_misuse_normalized.1 99 (by omega) [],
   C8_caller_misuse_normalized.2.1 (-7) (by omega),
   C8_caller_misuse_normalized.2.2.1 _ _ "random" (by decide),
   C8_caller_misuse_normalized.2.2.2 _ _ 6 []⟩

/-- C2: on every spec the generator can produce, the analysis returns
normally (modelled: `analyze_function_exc` is `ok`), and the two guarded
operations degrade as documented — a failed/indeterminate limit yields the
horizontal-asymptote default 0, and a y-intercept evaluation that divides by
zero yields the none-marker instead of an error.  (The root solves are not
guarded in the source, but they cannot fail on the factored shapes the
generator emits, so no failure path exists to degrade.) -/
theorem C2_analysis_never_raises :
    ∀ (d : ℤ) {t : List ℤ} {s : FunctionSpec} {t' : List ℤ},
    generate_function d t = some (s, t') →
    analyze_function_exc s = Except.ok (analyze_function s) ∧
    haOfLimit none = some 0 ∧
    (limitAtTop s.numerator s.denominator = none →
      (analyze_function s).horizontal_asymptote = some 0) ∧
    (0 ∈ s.denominator.allFactors.diff s.numerator.allFactors →
      (analyze_function s).y_intercept = none) := by
  intro d t s t' _
  refine ⟨rfl, rfl, ?_, ?_⟩
  · intro hlim
    simp [analyze_function, find_horizontal_asymptote, hlim, haOfLimit]
  · intro hz
    simp [analyze_function, simplifiedEvalAtZero, hz]

theorem C2_witness :
    analyze_function_exc ⟨⟨[-5], 1, 0⟩, ⟨[-5], 1, 0⟩⟩ =
      Except.ok (analyze_function ⟨⟨[-5], 1, 0⟩, ⟨[-5], 1, 0⟩⟩) ∧
    haOfLimit none = some 0 ∧
    (limitAtTop (⟨[-5], 1, 0⟩ : Poly) (⟨[-5], 1, 0⟩ : Poly) = none →
      (analyze_function ⟨⟨[-5], 1, 0⟩, ⟨[-5], 1, 0⟩⟩).horizontal_asymptote = some 0) ∧
    (0 ∈ (⟨[-5], 1, 0⟩ : Poly).allFactors.diff (⟨[-5], 1, 0⟩ : Poly).allFactors →
      (analyze_function ⟨⟨[-5], 1, 0⟩, ⟨[-5], 1, 0⟩⟩).y_intercept = none) :=
  C2_analysis_never_raises 1
    (show generate_function 1 [0, 0, 0, 0, 0, 0, 999] =
      some (⟨⟨[-5], 1, 0⟩, ⟨[-5], 1, 0⟩⟩, []) by decide)

open Polynomial Filter in
/-- C4: for every spec with nonzero structural coefficients (every spec the
generator can produce), the computed horizontal asymptote is the three-way
outcome of the limit of numerator/denominator at `+∞`: it is a finite value
`q` that really is the limit of the real rational function, or the
none-marker while the function really diverges to `+∞` or `-∞`; and the
failure branch of the computation defaults to 0. -/
theorem C4_horizontal_asymptote_is_limit :
    ∀ (num den : Poly), num.coeff ≠ 0 → den.coeff ≠ 0 →
    ((∃ q : ℚ, find_horizontal_asymptote num den = some q ∧
        Tendsto (fun x : ℝ => num.toR.eval x / den.toR.eval x) atTop
          (nhds (q : ℝ))) ∨
     (find_horizontal_asymptote num den = none ∧
        (Tendsto (fun x : ℝ => num.toR.eval x / den.toR.eval x) atTop atTop ∨
         Tendsto (fun x : ℝ => num.toR.eval x / den.toR.eval x) atTop atBot))) ∧
    haOfLimit none = some 0 := by
  intro num den hn hd
  refine ⟨?_, rfl⟩
  have hdn0 : den.toR ≠ 0 := Poly.toR_ne_zero hd
  have hnn0 : num.toR ≠ 0 := Poly.toR_ne_zero hn
  unfold find_horizontal_asymptote limitAtTop
  rw [if_neg hd, if_neg hn]
  by_cases hlt : num.deg < den.deg
  · rw [if_pos hlt]
    left
    refine ⟨0, rfl, ?_⟩
    have hdeg : num.toR.degree < den.toR.degree := by
      rw [degree_eq_natDegree hnn0, degree_eq_natDegree hdn0,
        Poly.toR_natDegree hn, Poly.toR_natDegree hd]
      exact_mod_cast hlt
    simpa using div_tendsto_zero_of_degree_lt num.toR den.toR hdeg
  · by_cases heq : num.deg = den.deg
    · rw [if_neg hlt, if_pos heq]
      left
      refine ⟨(num.coeff : ℚ) / (den.coeff : ℚ), rfl, ?_⟩
      have hdeg : num.toR.degree = den.toR.degree := by
        rw [degree_eq_natDegree hnn0, degree_eq_natDegree hdn0,
          Poly.toR_natDegree hn, Poly.toR_natDegree hd, heq]
      have hT := div_tendsto_leadingCoeff_div_of_degree_eq num.toR den.toR hdeg
      rw [Poly.toR_leadingCoeff, Poly.toR_leadingCoeff] at hT
      convert hT using 2
      push_cast
      ring
    · have hgt : den.deg < num.deg := by omega
      have hdeg : den.toR.degree < num.toR.degree := by
        rw [degree_eq_natDegree hnn0, degree_eq_natDegree hdn0,
          Poly.toR_natDegree hn, Poly.toR_natDegree hd]
        exact_mod_cast hgt
      rw [if_neg hlt, if_neg heq]
      by_cases hsign : 0 < num.coeff * den.coeff
      · rw [if_pos hsign]
        right
        refine ⟨rfl, Or.inl ?_⟩
        apply div_tendsto_atTop_of_degree_gt' num.toR den.toR hdeg
        rw [Poly.toR_leadingCoeff, Poly.toR_leadingCoeff]
        have hcast : (0 : ℝ) < (num.coeff : ℝ) * (den.coeff : ℝ) := by
          exact_mod_cast hsign
        rcases mul_pos_iff.1 hcast with ⟨h1, h2⟩ | ⟨h1, h2⟩
        · exact div_pos h1 h2
        · exact div_pos_of_neg_of_neg h1 h2
      · rw [if_neg hsign]
        right
        refine ⟨rfl, Or.inr ?_⟩
        apply div_tendsto_atBot_of_degree_gt' num.toR den.toR hdeg
        rw [Poly.toR_leadingCoeff, Poly.toR_leadingCoeff]
        have hneg : num.coeff * den.coeff < 0 := by
          rcases (mul_ne_zero hn hd).lt_or_lt with h | h
          · exact h
          · exact absurd h hsign
        have hcast : (num.coeff : ℝ) * (den.coeff : ℝ) < 0 := by
          exact_mod_cast hneg
        rcases mul_neg_iff.1 hcast with ⟨h1, h2⟩ | ⟨h1, h2⟩
        · exact div_neg_of_pos_of_neg h1 h2
        · exact div_neg_of_neg_of_pos h1 h2

open Filter in
theorem C4_witness :
    ((∃ q : ℚ,
        find_horizontal_asymptote (⟨[2], 1, 0⟩ : Poly) (⟨[2, 3], 1, 0⟩ : Poly) =
          some q ∧
        Tendsto (fun x : ℝ =>
            (⟨[2], 1, 0⟩ : Poly).toR.eval x / (⟨[2, 3], 1, 0⟩ : Poly).toR.eval x)
          atTop (nhds (q : ℝ))) ∨
     (find_horizontal_asymptote (⟨[2], 1, 0⟩ : Poly) (⟨[2, 3], 1, 0⟩ : Poly) =
          none ∧
        (Tendsto (fun x : ℝ =>
            (⟨[2], 1, 0⟩ : Poly).toR.eval x / (⟨[2, 3], 1, 0⟩ : Poly).toR.eval x)
          atTop atTop ∨
         Tendsto (fun x : ℝ =>
            (⟨[2], 1, 0⟩ : Poly).toR.eval x / (⟨[2, 3], 1, 0⟩ : Poly).toR.eval x)
          atTop atBot))) ∧
    haOfLimit none = some 0 :=
  C4_horizontal_asymptote_is_limit ⟨[2], 1, 0⟩ ⟨[2, 3], 1, 0⟩
    (by decide) (by decide)

/-! ### Question-builder properties -/

theorem shuffleFuel_perm [DecidableEq α] :
    ∀ (n : ℕ) (l : List α) {t : List ℤ} {l' : List α} {t' : List ℤ},
    shuffleFuel n l t = some (l', t') → l'.Perm l := by
  intro n
  induction n with
  | zero =>
    intro l t l' t' h
    simp only [shuffleFuel, RandM.pure_apply, Option.some.injEq,
      Prod.mk.injEq] at h
    obtain ⟨rfl, rfl⟩ := h
    exact List.Perm.refl l
  | succ k ih =>
    intro l t l' t' h
    match l with
    | [] =>
      simp only [shuffleFuel, RandM.pure_apply, Option.some.injEq,
        Prod.mk.injEq] at h
      obtain ⟨rfl, rfl⟩ := h
      exact List.Perm.refl []
    | a :: rest =>
      unfold shuffleFuel at h
      simp only [RandM.bind_apply] at h
      split at h
      · simp at h
      rename_i j t1 hj
      split at h
      · simp at h
      rename_i tail t2 htail
      simp only [RandM.pure_apply, Option.some.injEq, Prod.mk.injEq] at h
      obtain ⟨rfl, rfl⟩ := h
      have hmem : (a :: rest).getD j.toNat a ∈ a :: rest := by
        rcases Nat.lt_or_ge j.toNat (a :: rest).length with hlt | hge
        · rw [List.getD_eq_getElem _ _ hlt]
          exact List.getElem_mem hlt
        · rw [List.getD_eq_default _ _ hge]
          exact List.mem_cons_self a rest
      exact ((ih _ htail).cons _).trans
        (List.perm_cons_erase hmem).symm

theorem shuffle_perm [DecidableEq α] {l : List α} {t : List ℤ} {l' : List α}
    {t' : List ℤ} (h : shuffle l t = some (l', t')) : l'.Perm l :=
  shuffleFuel_perm _ _ h

/-- C6: for each of the four feature kinds, when the correct answer is the
empty feature set (the none-marker for the horizontal asymptote), the
returned question's canonical correct answer is the literal "None" and its
four choices are exactly "None" together with the fixed distractors `[-1]`,
`[0]`, `[1]` (respectively `-1, 0, 1` rendered as bare ints for the
horizontal-asymptote kind) in some shuffle order — never resampled values. -/
theorem C6_fixed_distractors_on_empty :
    (∀ (s : FunctionSpec) (an : FeatureSet), an.vertical_asymptotes = [] →
      ∀ {t : List ℤ} {q : Question} {t' : List ℤ},
      generate_va_question s an t = some (q, t') →
      q.correct_answer = "None" ∧
      q.choices.Perm ["None", "[-1]", "[0]", "[1]"]) ∧
    (∀ (s : FunctionSpec) (an : FeatureSet), an.x_intercepts = [] →
      ∀ {t : List ℤ} {q : Question} {t' : List ℤ},
      generate_x_intercept_question s an t = some (q, t') →
      q.correct_answer = "None" ∧
      q.choices.Perm ["None", "[-1]", "[0]", "[1]"]) ∧
    (∀ (s : FunctionSpec) (an : FeatureSet), an.holes = [] →
      ∀ {t : List ℤ} {q : Question} {t' : List ℤ},
      generate_holes_question s an t = some (q, t') →
      q.correct_answer = "None" ∧
      q.choices.Perm ["None", "[-1]", "[0]", "[1]"]) ∧
    (∀ (s : FunctionSpec) (an : FeatureSet), an.horizontal_asymptote = none →
      ∀ {t : List ℤ} {q : Question} {t' : List ℤ},
      generate_ha_question s an t = some (q, t') →
      q.correct_answer = "None" ∧
      q.choices.Perm ["None", "0", "1", "-1"]) := by
  refine ⟨?_, ?_, ?_, ?_⟩
  · intro s an hva t q t' h
    unfold generate_va_question at h
    rw [hva] at h
    simp only [RandM.bind_apply] at h
    split at h
    · simp at h
    rename_i ws t1 hws
    simp only [reduceIte] at h
    split at h
    · simp at h
    rename_i choices t2 hsh
    simp only [RandM.pure_apply, Option.some.injEq, Prod.mk.injEq] at h
    obtain ⟨rfl, rfl⟩ := h
    refine ⟨rfl, ?_⟩
    have hperm := (shuffle_perm hsh).map ChoiceVal.pyStr
    simpa [ChoiceVal.pyStr, listStr, intStr] using hperm
  · intro s an hxi t q t' h
    unfold generate_x_intercept_question at h
    rw [hxi] at h
    simp only [RandM.bind_apply] at h
    split at h
    · simp at h
    rename_i ws t1 hws
    simp only [reduceIte] at h
    split at h
    · simp at h
    rename_i choices t2 hsh
    simp only [RandM.pure_apply, Option.some.injEq, Prod.mk.injEq] at h
    obtain ⟨rfl, rfl⟩ := h
    refine ⟨rfl, ?_⟩
    have hperm := (shuffle_perm hsh).map ChoiceVal.pyStr
    simpa [ChoiceVal.pyStr, listStr, intStr] using hperm
  · intro s an hho t q t' h
    unfold generate_holes_question at h
    rw [hho] at h
    simp only [RandM.bind_apply] at h
    split at h
    · simp at h
    rename_i ws t1 hws
    simp only [reduceIte] at h
    split at h
    · simp at h
    rename_i choices t2 hsh
    simp only [RandM.pure_apply, Option.some.injEq, Prod.mk.injEq] at h
    obtain ⟨rfl, rfl⟩ := h
    refine ⟨rfl, ?_⟩
    have hperm := (shuffle_perm hsh).map ChoiceVal.pyStr
    simpa [ChoiceVal.pyStr, listStr, intStr] using hperm
  · intro s an hha t q t' h
    unfold generate_ha_question at h
    rw [hha] at h
    simp only [RandM.bind_apply, RandM.pure_apply] at h
    split at h
    · simp at h
    rename_i choices t2 hsh
    simp only [RandM.pure_apply, Option.some.injEq, Prod.mk.injEq] at h
    obtain ⟨rfl, rfl⟩ := h
    refine ⟨rfl, ?_⟩
    have hperm := (shuffle_perm hsh).map ChoiceVal.pyStr
    simpa [ChoiceVal.pyStr, intStr] using hperm

theorem C6_witness :
    ((⟨"What are the vertical asymptotes of f(x) = (1*x^0*(x - 1))/(1*x^0)?",
        ["None", "[-1]", "[0]", "[1]"], "None",
        "Vertical asymptotes occur where the denominator equals zero but the numerator doesn't."⟩
          : Question).correct_answer = "None" ∧
      (⟨"What are the vertical asymptotes of f(x) = (1*x^0*(x - 1))/(1*x^0)?",
        ["None", "[-1]", "[0]", "[1]"], "None",
        "Vertical asymptotes occur where the denominator equals zero but the numerator doesn't."⟩
          : Question).choices.Perm ["None", "[-1]", "[0]", "[1]"]) ∧
    ((⟨"What is the horizontal asymptote of f(x) = (1*x^0*(x - 1))/(1*x^0)?",
        ["None", "0", "1", "-1"], "None",
        "Horizontal asymptotes depend on the degrees of numerator and denominator."⟩
          : Question).correct_answer = "None" ∧
      (⟨"What is the horizontal asymptote of f(x) = (1*x^0*(x - 1))/(1*x^0)?",
        ["None", "0", "1", "-1"], "None",
        "Horizontal asymptotes depend on the degrees of numerator and denominator."⟩
          : Question).choices.Perm ["None", "0", "1", "-1"]) :=
  ⟨C6_fixed_distractors_on_empty.1 ⟨⟨[1], 1, 0⟩, ⟨[], 1, 0⟩⟩
      ⟨[], [], none, [], none⟩ rfl
      (show generate_va_question ⟨⟨[1], 1, 0⟩, ⟨[], 1, 0⟩⟩
          ⟨[], [], none, [], none⟩ [0, 1, 2, 0, 0, 0, 0] =
        some (⟨"What are the vertical asymptotes of f(x) = (1*x^0*(x - 1))/(1*x^0)?",
          ["None", "[-1]", "[0]", "[1]"], "None",
          "Vertical asymptotes occur where the denominator equals zero but the numerator doesn't."⟩,
          []) by decide),
   C6_fixed_distractors_on_empty.2.2.2 ⟨⟨[1], 1, 0⟩, ⟨[], 1, 0⟩⟩
      ⟨[], [], none, [], none⟩ rfl
      (show generate_ha_question ⟨⟨[1], 1, 0⟩, ⟨[], 1, 0⟩⟩
          ⟨[], [], none, [], none⟩ [0, 0, 0, 0] =
        some (⟨"What is the horizontal asymptote of f(x) = (1*x^0*(x - 1))/(1*x^0)?",
          ["None", "0", "1", "-1"], "None",
          "Horizontal asymptotes depend on the degrees of numerator and denominator."⟩,
          []) by decide)⟩

/-- C1 (code bug): in the vertical-asymptote kind, the collision check
`wrong in wrong_answers` compares the drawn int against a list of singleton
lists, which is always false in Python, so duplicate wrong answers are never
rejected.  On the spec `(x-4)/(x-3)` (one vertical asymptote at 3) with the
random draws 4, 4, 5, the built question's four choice strings contain
"[4]" twice — the claimed pairwise distinctness fails. -/
theorem C1_va_duplicate_choice_strings :
    ∃ q t', generate_va_question ⟨⟨[4], 1, 0⟩, ⟨[3], 1, 0⟩⟩
        (analyze_function ⟨⟨[4], 1, 0⟩, ⟨[3], 1, 0⟩⟩)
        [9, 9, 10, 0, 0, 0, 0] = some (q, t') ∧
      q.choices = ["[3.0]", "[4]", "[4]", "[5]"] ∧
      q.choices.count "[4]" = 2 ∧ ¬ q.choices.Nodup :=
  ⟨⟨"What are the vertical asymptotes of f(x) = (1*x^0*(x - 4))/(1*x^0*(x - 3))?",
      ["[3.0]", "[4]", "[4]", "[5]"], "[3.0]",
      "Vertical asymptotes occur where the denominator equals zero but the numerator doesn't."⟩,
    [], by decide, rfl, by decide, by decide⟩

end RFG
